import Mathlib

set_option autoImplicit false

/-!
A shallow embedding of `src/ai_schema_designer_project/tracking_plan.py`.

Python strings are modelled as `List Char` (`PyStr`).  Character-level
operations (`str.lower`, `str.strip`, the two `re.sub` calls in `_slugify`,
and the anchored `re.match` of `SNAKE_CASE_PATTERN`) are modelled over ASCII
code points, which covers every character the program itself introduces.
The sample generator's random source is modelled as an explicit stream of
natural-number draws together with a cursor; `datetime.utcnow()` is an
abstract integer timestamp in minutes.
-/

abbrev PyStr := List Char

def chars (s : String) : PyStr := s.data

/-- The character class `[a-z0-9]` of `_slugify`'s first regex. -/
def isLowerAlphaNum (c : Char) : Bool :=
  (97 ≤ c.toNat && c.toNat ≤ 122) || (48 ≤ c.toNat && c.toNat ≤ 57)

/-- The character class `[a-z0-9_]` of `SNAKE_CASE_PATTERN`. -/
def slugChar (c : Char) : Bool := isLowerAlphaNum c || c.toNat = 95

/-- ASCII whitespace stripped by Python's `str.strip()`. -/
def isPySpace (c : Char) : Bool :=
  c.toNat = 32 || c.toNat = 9 || c.toNat = 10 || c.toNat = 13 || c.toNat = 11 || c.toNat = 12

/-- `str.lower` on one character (ASCII). -/
def pyLower (c : Char) : Char :=
  if 65 ≤ c.toNat && c.toNat ≤ 90 then Char.ofNat (c.toNat + 32) else c

/-- Uppercasing of one character (ASCII), used by `str.capitalize`. -/
def pyUpper (c : Char) : Char :=
  if 97 ≤ c.toNat && c.toNat ≤ 122 then Char.ofNat (c.toNat - 32) else c

/-- `str.capitalize`: first character uppercased, the rest lowercased. -/
def pyCapitalize (s : PyStr) : PyStr :=
  match s with
  | [] => []
  | c :: rest => pyUpper c :: rest.map pyLower

/-- Remove the longest suffix of characters satisfying `p`. -/
def dropEnd (p : Char → Bool) (s : PyStr) : PyStr :=
  (s.reverse.dropWhile p).reverse

/-- Python `str.strip`: remove characters satisfying `p` from both ends. -/
def pyStrip (p : Char → Bool) (s : PyStr) : PyStr :=
  dropEnd p (s.dropWhile p)

/-- `re.sub(r"[^a-z0-9]+", "_", s)`: each maximal run of characters outside
`[a-z0-9]` becomes a single underscore.  `inRun` records whether the previous
character belonged to such a run. -/
def subNonAlnum (inRun : Bool) : PyStr → PyStr
  | [] => []
  | c :: rest =>
    if isLowerAlphaNum c then c :: subNonAlnum false rest
    else if inRun then subNonAlnum true rest
    else '_' :: subNonAlnum true rest

/-- `re.sub(r"_+", "_", s)`: collapse runs of underscores to one underscore. -/
def collapseUnd (prevUnd : Bool) : PyStr → PyStr
  | [] => []
  | c :: rest =>
    if c.toNat = 95 then
      if prevUnd then collapseUnd true rest else c :: collapseUnd true rest
    else c :: collapseUnd false rest

/-- `_slugify` from tracking_plan.py: strip, lowercase, replace non-alnum runs
by `_`, collapse repeated `_`, and strip `_` from both ends. -/
def _slugify (text : PyStr) : PyStr :=
  pyStrip (fun c => c.toNat = 95)
    (collapseUnd false (subNonAlnum false ((pyStrip isPySpace text).map pyLower)))

/-- `_event_name`: slug of the feature, a double underscore, slug of the label. -/
def _event_name (feature_name action : PyStr) : PyStr :=
  _slugify feature_name ++ chars "__" ++ _slugify action

/-- `needle.isPrefixOf hay` written out, modelling anchored matching. -/
def startsWith : PyStr → PyStr → Bool
  | [], _ => true
  | _ :: _, [] => false
  | a :: as, b :: bs => a == b && startsWith as bs

/-- Python's substring test `needle in hay`. -/
def containsSeq (needle : PyStr) : PyStr → Bool
  | [] => startsWith needle []
  | c :: rest => startsWith needle (c :: rest) || containsSeq needle rest

structure Property where
  name : PyStr
  type : PyStr
  description : PyStr
  required : Bool
deriving DecidableEq, Repr

structure EventDefinition where
  event_name : PyStr
  friendly_name : PyStr
  description : PyStr
  when_triggered : PyStr
  platform : PyStr
  properties : List Property
  category : PyStr
deriving DecidableEq, Repr

structure TrackingPlan where
  feature_name : PyStr
  feature_description : PyStr
  platform : PyStr
  events : List EventDefinition
  taxonomy_issues : List PyStr
deriving DecidableEq, Repr

def userIdProp : Property :=
  ⟨chars "user_id", chars "string", chars "Unique identifier for the user", true⟩
def workspaceIdProp : Property :=
  ⟨chars "workspace_id", chars "string", chars "Workspace or account identifier", true⟩
def timestampProp : Property :=
  ⟨chars "timestamp", chars "datetime", chars "Event timestamp in ISO 8601", true⟩
def errorCodeProp : Property :=
  ⟨chars "error_code", chars "string", chars "Machine-readable error code", false⟩
def errorMessageProp : Property :=
  ⟨chars "error_message", chars "string", chars "Human-readable error message", false⟩
def elementIdProp : Property :=
  ⟨chars "element_id", chars "string", chars "Frontend identifier for the clicked element", false⟩
def pageProp : Property :=
  ⟨chars "page", chars "string", chars "Page or screen where the action occurred", false⟩

/-- `_default_properties`: the three mandatory properties, then the error block
when the lowercased label contains "error", then the click block when it
contains "click" or "cta". -/
def _default_properties (action : PyStr) : List Property :=
  let lowered := action.map pyLower
  let props := [userIdProp, workspaceIdProp, timestampProp]
  let props := if containsSeq (chars "error") lowered
    then props ++ [errorCodeProp, errorMessageProp] else props
  let props := if containsSeq (chars "click") lowered || containsSeq (chars "cta") lowered
    then props ++ [elementIdProp, pageProp] else props
  props

def quoteCh : Char := '\''

def dupMsg (name : PyStr) : PyStr := chars "Duplicate event name detected: " ++ name
def snakeMsg (name : PyStr) : PyStr := chars "Event name not snake_case: " ++ name
def missingMsg (prop name : PyStr) : PyStr :=
  chars "Missing required property " ++ [quoteCh] ++ prop ++ [quoteCh] ++ chars " in event: " ++ name

/-- `re.match(SNAKE_CASE_PATTERN, name)` with `SNAKE_CASE_PATTERN = "^[a-z0-9_]+$"`.
In Python, `$` also matches just before a newline that ends the string, so a
name built of `[a-z0-9_]` characters followed by one trailing newline matches. -/
def snakeCaseMatch (name : PyStr) : Bool :=
  let core := if name.getLast? == some '\n' then name.dropLast else name
  !core.isEmpty && core.all slugChar

/-- The snake_case predicate as the spec words it: one or more characters
drawn from lowercase letters, digits, and underscores. -/
def snakeStrict (name : PyStr) : Bool :=
  !name.isEmpty && name.all slugChar

def requiredPropNames : List PyStr :=
  [chars "user_id", chars "workspace_id", chars "timestamp"]

/-- `required_prop in props` where `props` is the dict keyed by property name. -/
def hasProp (ev : EventDefinition) (prop : PyStr) : Bool :=
  ev.properties.any (fun p => p.name == prop)

/-- The issues the validator's loop body emits for one event: the duplicate
message when `isDup`, then the snake_case message when the name fails
`snakePred`, then one missing-property message per absent required property,
in the fixed order user_id, workspace_id, timestamp. -/
def eventIssues (isDup : Bool) (snakePred : PyStr → Bool) (ev : EventDefinition) : List PyStr :=
  (if isDup then [dupMsg ev.event_name] else [])
    ++ (if snakePred ev.event_name then [] else [snakeMsg ev.event_name])
    ++ requiredPropNames.flatMap
        (fun p => if hasProp ev p then [] else [missingMsg p ev.event_name])

/-- The loop of `validate_taxonomy`; `seen` is the set of names already seen
(only membership is ever queried, so a list models the Python set). -/
def validateGo (seen : List PyStr) : List EventDefinition → List PyStr
  | [] => []
  | ev :: rest =>
    eventIssues (seen.contains ev.event_name) snakeCaseMatch ev
      ++ validateGo (ev.event_name :: seen) rest

/-- `validate_taxonomy` from tracking_plan.py. -/
def validate_taxonomy (events : List EventDefinition) : List PyStr :=
  validateGo [] events

/-- The validator output as the spec describes it: for the i-th event, the
duplicate message fires exactly when the name occurs among the first i event
names, followed by the per-event issues in fixed order. -/
def validateByIndex (snakePred : PyStr → Bool) (events : List EventDefinition) : List PyStr :=
  (List.range events.length).flatMap (fun i =>
    match events[i]? with
    | none => []
    | some ev =>
      eventIssues (((events.take i).map (fun e => e.event_name)).contains ev.event_name)
        snakePred ev)

def defaultFunnelStages : List PyStr := [chars "view", chars "start", chars "complete"]

def mkFunnelEvent (feature_name platform stage : PyStr) : EventDefinition :=
  { event_name := _event_name feature_name stage
    friendly_name := feature_name ++ chars " - " ++ pyCapitalize stage
    description := chars "Fired when a user " ++ stage ++ chars "s the "
      ++ feature_name ++ chars " feature."
    when_triggered := chars "User " ++ stage ++ chars "s the " ++ feature_name ++ chars " flow."
    platform := platform
    properties := _default_properties stage
    category := chars "funnel" }

def mkBehaviorEvent (feature_name platform action : PyStr) : EventDefinition :=
  { event_name := _event_name feature_name action
    friendly_name := feature_name ++ chars " - " ++ pyCapitalize action
    description := chars "Fired when a user performs key action: " ++ action ++ chars "."
    when_triggered := chars "User completes action: " ++ action ++ chars "."
    platform := platform
    properties := _default_properties action
    category := chars "behavior" }

/-- `not action.strip()`: the blank/whitespace-only test. -/
def isBlank (s : PyStr) : Bool := (pyStrip isPySpace s).isEmpty

/-- `generate_tracking_plan` from tracking_plan.py.  `funnel_stages = none`
models the Python default `None`; `if not funnel_stages` is true for `None`
and for the empty list. -/
def generate_tracking_plan (feature_name feature_description : PyStr)
    (key_actions : List PyStr) (platform : PyStr)
    (funnel_stages : Option (List PyStr)) : TrackingPlan :=
  let stages := match funnel_stages with
    | none => defaultFunnelStages
    | some l => if l.isEmpty then defaultFunnelStages else l
  let funnelEvents := stages.map (mkFunnelEvent feature_name platform)
  let behaviorEvents :=
    (key_actions.filter (fun a => !isBlank a)).map (mkBehaviorEvent feature_name platform)
  let events := funnelEvents ++ behaviorEvents
  { feature_name := feature_name
    feature_description := feature_description
    platform := platform
    events := events
    taxonomy_issues := validate_taxonomy events }

/-- One markdown line per property: name, type, required/optional, description. -/
def propLine (p : Property) : PyStr :=
  chars "  - `" ++ p.name ++ chars "` (" ++ p.type ++ chars ", "
    ++ (if p.required then chars "required" else chars "optional")
    ++ chars ") — " ++ p.description

/-- The block of markdown lines for one event. -/
def eventLines (ev : EventDefinition) : List PyStr :=
  [chars "### " ++ ev.event_name,
   chars "- **Friendly name:** " ++ ev.friendly_name,
   chars "- **Category:** " ++ ev.category,
   chars "- **Platform:** " ++ ev.platform,
   chars "- **When triggered:** " ++ ev.when_triggered,
   chars "- **Description:** " ++ ev.description,
   chars "- **Properties:**"]
    ++ ev.properties.map propLine
    ++ [[]]

/-- `tracking_plan_to_markdown` from tracking_plan.py: the accumulated lines
joined with newlines. -/
def tracking_plan_to_markdown (plan : TrackingPlan) : PyStr :=
  let lines :=
    [chars "# Tracking Plan: " ++ plan.feature_name, [],
     plan.feature_description, [],
     chars "## Events", []]
    ++ plan.events.flatMap eventLines
    ++ (if plan.taxonomy_issues.isEmpty then []
        else [chars "## Taxonomy Warnings", []]
          ++ plan.taxonomy_issues.map (fun i => chars "- " ++ i))
  List.intercalate ['\n'] lines

/-- The tree of values that `yaml.safe_dump` receives. -/
inductive YamlValue where
  | str (s : PyStr)
  | nat (n : Nat)
  | list (items : List YamlValue)
  | dict (entries : List (PyStr × YamlValue))

/-- One column dict of `tracking_plan_to_dbt_yaml`. -/
def dbtColumn (p : Property) : YamlValue :=
  .dict [(chars "name", .str p.name),
         (chars "description", .str p.description),
         (chars "tests", .list (if p.required then [.str (chars "not_null")] else []))]

/-- One model dict of `tracking_plan_to_dbt_yaml`. -/
def dbtModel (ev : EventDefinition) : YamlValue :=
  .dict [(chars "name", .str ev.event_name),
         (chars "description", .str ev.description),
         (chars "columns", .list (ev.properties.map dbtColumn))]

/-- The `schema` value that `tracking_plan_to_dbt_yaml` passes to
`yaml.safe_dump(schema, sort_keys=False)`; the dump itself is an external
library serialization of exactly this structure. -/
def dbt_schema (plan : TrackingPlan) : YamlValue :=
  .dict [(chars "version", .nat 2),
         (chars "models", .list (plan.events.map dbtModel))]

/-- The random source: a stream of natural-number draws and a cursor. -/
structure Gen where
  r : Nat → Nat
  i : Nat

def nextNat (g : Gen) : Nat × Gen := (g.r g.i, { g with i := g.i + 1 })

/-- `random.randint(a, b)`: uniform on [a, b], modelled as a + draw mod (b - a + 1). -/
def pyRandint (a b : Nat) (g : Gen) : Nat × Gen :=
  (a + (nextNat g).1 % (b - a + 1), (nextNat g).2)

/-- `random.choice(xs)`: indexes by draw mod length; on an empty sequence the
Python call raises IndexError, modelled as `none`. -/
def pyChoice {α : Type} (xs : List α) (g : Gen) : Option α × Gen :=
  (xs[(nextNat g).1 % xs.length]?, (nextNat g).2)

/-- `random.choice` at a nonempty literal list (as in the property-value
dispatch, where every list has three elements and the call cannot fail). -/
def pyChoiceList (xs : List PyStr) (g : Gen) : PyStr × Gen :=
  (xs.getD ((nextNat g).1 % xs.length) [], (nextNat g).2)

/-- A value stored in one generated sample record.  `isoTimestamp t` stands for
`ts.isoformat() + "Z"` where `t` is the timestamp in minutes; `null` is
Python's `None`. -/
inductive SampleValue where
  | str (v : PyStr)
  | isoTimestamp (t : Int)
  | null
deriving DecidableEq, Repr

/-- A Python dict in insertion order with unique keys. -/
abbrev Record := List (PyStr × SampleValue)

/-- `d[k] = v`: update the existing key in place, else append. -/
def dictSet (d : Record) (k : PyStr) (v : SampleValue) : Record :=
  match d with
  | [] => [(k, v)]
  | (k0, v0) :: rest => if k0 == k then (k0, v) :: rest else (k0, v0) :: dictSet rest k v

def dictGet (d : Record) (k : PyStr) : Option SampleValue :=
  match d with
  | [] => Option.none
  | (k0, v0) :: rest => if k0 == k then some v0 else dictGet rest k

def natChars (n : Nat) : PyStr := Nat.toDigits 10 n

/-- The value drawn for one property, dispatched on the property name exactly
as the if/elif chain of the loop body does. -/
def sampleValueFor (ts : Int) (name : PyStr) (g : Gen) : SampleValue × Gen :=
  if name == chars "user_id" then
    (.str (chars "user_" ++ natChars (pyRandint 1 50 g).1), (pyRandint 1 50 g).2)
  else if name == chars "workspace_id" then
    (.str (chars "ws_" ++ natChars (pyRandint 1 10 g).1), (pyRandint 1 10 g).2)
  else if name == chars "timestamp" then
    (.isoTimestamp ts, g)
  else if name == chars "error_code" then
    let c := pyChoiceList [chars "", chars "E_TIMEOUT", chars "E_500"] g
    (.str c.1, c.2)
  else if name == chars "error_message" then
    let c := pyChoiceList [chars "", chars "Timeout", chars "Internal server error"] g
    (.str c.1, c.2)
  else if name == chars "element_id" then
    let c := pyChoiceList [chars "cta_primary", chars "secondary_button", chars "link_text"] g
    (.str c.1, c.2)
  else if name == chars "page" then
    let c := pyChoiceList [chars "settings", chars "dashboard", chars "feature_page"] g
    (.str c.1, c.2)
  else
    (.null, g)

/-- One `payload[p["name"]] = value` step of the property loop. -/
def assignProp (ts : Int) (st : Record × Gen) (p : Property) : Record × Gen :=
  (dictSet st.1 p.name (sampleValueFor ts p.name st.2).1, (sampleValueFor ts p.name st.2).2)

/-- One iteration of `generate_sample_events`: choose an event, draw the
timestamp offset, then fill the payload property by property. -/
def genOne (now : Int) (events : List EventDefinition) (g : Gen) : Option (Record × Gen) :=
  match (pyChoice events g).1 with
  | Option.none => Option.none
  | some ev =>
    let ts : Int := now - (pyRandint 0 1440 (pyChoice events g).2).1
    some (ev.properties.foldl (assignProp ts)
      ([(chars "event_name", .str ev.event_name)], (pyRandint 0 1440 (pyChoice events g).2).2))

/-- The `for _ in range(n)` loop; a raised IndexError propagates as `none`. -/
def genLoop (now : Int) (events : List EventDefinition) : Nat → Gen → Option (List Record × Gen)
  | 0, g => some ([], g)
  | Nat.succ n, g =>
    match genOne now events g with
    | Option.none => Option.none
    | some (smp, g1) =>
      match genLoop now events n g1 with
      | Option.none => Option.none
      | some (rs, g2) => some (smp :: rs, g2)

/-- `generate_sample_events` from tracking_plan.py, with the random stream `r`
and the clock value `now` passed explicitly. -/
def generate_sample_events (r : Nat → Nat) (now : Int) (plan : TrackingPlan) (n : Nat) :
    Option (List Record) :=
  match genLoop now plan.events n { r := r, i := 0 } with
  | Option.none => Option.none
  | some (rs, _) => some rs

/-- Call-level embedding of the report renderer: its output paired with the
state of the plan object when the call returns.  The body only reads the plan
and appends to a fresh `lines` list, so the final state is the argument. -/
def tracking_plan_to_markdown_call (plan : TrackingPlan) : PyStr × TrackingPlan :=
  (tracking_plan_to_markdown plan, plan)

/-- Call-level embedding of the schema-manifest renderer (see
`tracking_plan_to_markdown_call`): no statement of the body writes to the plan. -/
def tracking_plan_to_dbt_yaml_call (plan : TrackingPlan) : YamlValue × TrackingPlan :=
  (dbt_schema plan, plan)

/-- Call-level embedding of the sample generator (see
`tracking_plan_to_markdown_call`): the loop builds fresh payload dicts and
never writes to the plan. -/
def generate_sample_events_call (r : Nat → Nat) (now : Int) (plan : TrackingPlan) (n : Nat) :
    Option (List Record) × TrackingPlan :=
  (generate_sample_events r now plan n, plan)

/-! ### Character-level helper lemmas -/

theorem char_eq_of_toNat_eq {a b : Char} (h : a.toNat = b.toNat) : a = b :=
  Char.ext (UInt32.toNat.inj h)

theorem eq_und_of_toNat {c : Char} (h : c.toNat = 95) : c = '_' :=
  char_eq_of_toNat_eq h

theorem alnum_toNat {c : Char} (h : isLowerAlphaNum c = true) :
    (97 ≤ c.toNat ∧ c.toNat ≤ 122) ∨ (48 ≤ c.toNat ∧ c.toNat ≤ 57) := by
  simpa [isLowerAlphaNum, Bool.or_eq_true, Bool.and_eq_true, decide_eq_true_eq] using h

theorem slugChar_toNat {c : Char} (h : slugChar c = true) :
    (97 ≤ c.toNat ∧ c.toNat ≤ 122) ∨ (48 ≤ c.toNat ∧ c.toNat ≤ 57) ∨ c.toNat = 95 := by
  simp only [slugChar, Bool.or_eq_true, decide_eq_true_eq] at h
  rcases h with h | h
  · rcases alnum_toNat h with h1 | h1
    · exact Or.inl h1
    · exact Or.inr (Or.inl h1)
  · exact Or.inr (Or.inr h)

theorem alnum_slugChar {c : Char} (h : isLowerAlphaNum c = true) : slugChar c = true := by
  simp [slugChar, h]

theorem alnum_not_und {c : Char} (h : isLowerAlphaNum c = true) : (c == '_') = false := by
  rw [beq_eq_false_iff_ne]
  intro he
  have h2 := alnum_toNat h
  rw [he] at h2
  revert h2
  decide

theorem slugChar_not_space {c : Char} (h : slugChar c = true) : isPySpace c = false := by
  have h2 := slugChar_toNat h
  simp only [isPySpace, Bool.or_eq_false_iff, decide_eq_false_iff_not]
  omega

theorem slugChar_pyLower {c : Char} (h : slugChar c = true) : pyLower c = c := by
  have h2 := slugChar_toNat h
  unfold pyLower
  split
  · next hcond =>
      exfalso
      simp only [Bool.and_eq_true, decide_eq_true_eq] at hcond
      omega
  · rfl

theorem slugChar_ne_newline {c : Char} (h : slugChar c = true) : (c == '\n') = false := by
  rw [beq_eq_false_iff_ne]
  intro he
  have h2 := slugChar_toNat h
  rw [he] at h2
  revert h2
  decide

/-! ### Generic list helper lemmas -/

theorem map_eq_self_of {α : Type} {f : α → α} {s : List α} (h : ∀ c ∈ s, f c = c) :
    s.map f = s := by
  induction s with
  | nil => rfl
  | cons a t ih =>
    simp only [List.map_cons, h a (by simp)]
    rw [ih (fun c hc => h c (by simp [hc]))]

theorem dropWhile_eq_self_head {p : Char → Bool} {s : PyStr}
    (h : ∀ c, s.head? = some c → p c = false) : s.dropWhile p = s := by
  cases s with
  | nil => rfl
  | cons a t =>
    rw [List.dropWhile_cons_of_neg]
    simp [h a rfl]

theorem head_dropWhile_false {p : Char → Bool} {s : PyStr} {c : Char}
    (h : (s.dropWhile p).head? = some c) : p c = false := by
  have h2 := List.head?_dropWhile_not p s
  rw [h] at h2
  exact h2

theorem pyStrip_eq_self {p : Char → Bool} {s : PyStr}
    (h1 : ∀ c, s.head? = some c → p c = false)
    (h2 : ∀ c, s.getLast? = some c → p c = false) : pyStrip p s = s := by
  unfold pyStrip dropEnd
  rw [dropWhile_eq_self_head h1]
  rw [dropWhile_eq_self_head (fun c hc => h2 c (by rwa [List.head?_reverse] at hc))]
  exact List.reverse_reverse s

theorem mem_pyStrip {p : Char → Bool} {s : PyStr} {c : Char} (h : c ∈ pyStrip p s) : c ∈ s := by
  unfold pyStrip dropEnd at h
  rw [List.mem_reverse] at h
  have h2 := (List.dropWhile_sublist p (l := (s.dropWhile p).reverse)).subset h
  rw [List.mem_reverse] at h2
  exact (List.dropWhile_sublist p (l := s)).subset h2

theorem flatMap_ext {α β : Type} {f g : α → List β} (l : List α)
    (h : ∀ a ∈ l, f a = g a) : l.flatMap f = l.flatMap g := by
  induction l with
  | nil => rfl
  | cons a t ih =>
    simp only [List.flatMap_cons, h a (by simp)]
    rw [ih (fun x hx => h x (by simp [hx]))]

/-! ### No-doubled-underscore predicate -/

/-- No two consecutive underscores. -/
def noDouble : PyStr → Bool
  | [] => true
  | [_] => true
  | a :: b :: t => !(a == '_' && b == '_') && noDouble (b :: t)

theorem noDouble_cons_eq (a : Char) (l : PyStr) :
    noDouble (a :: l)
      = ((match l.head? with | none => true | some b => !(a == '_' && b == '_'))
          && noDouble l) := by
  cases l <;> simp [noDouble]

theorem noDouble_append_right {u v : PyStr} (h : noDouble (u ++ v) = true) :
    noDouble v = true := by
  induction u with
  | nil => exact h
  | cons a t ih =>
    rw [List.cons_append, noDouble_cons_eq, Bool.and_eq_true] at h
    exact ih h.2

theorem noDouble_append_left {u v : PyStr} (h : noDouble (u ++ v) = true) :
    noDouble u = true := by
  induction u with
  | nil => rfl
  | cons a t ih =>
    rw [List.cons_append, noDouble_cons_eq, Bool.and_eq_true] at h
    rw [noDouble_cons_eq, Bool.and_eq_true]
    refine ⟨?_, ih h.2⟩
    cases t with
    | nil => simp
    | cons b t2 =>
      have h1 := h.1
      simpa using h1

/-! ### Lemmas about the first regex substitution -/

theorem subNonAlnum_all (b : Bool) (s : PyStr) :
    ∀ c ∈ subNonAlnum b s, slugChar c = true := by
  induction s generalizing b with
  | nil => intro c hc; simp [subNonAlnum] at hc
  | cons a t ih =>
    intro c hc
    by_cases ha : isLowerAlphaNum a = true
    · rw [subNonAlnum, if_pos ha] at hc
      rcases List.mem_cons.mp hc with h | h
      · rw [h]; exact alnum_slugChar ha
      · exact ih false c h
    · rw [subNonAlnum, if_neg ha] at hc
      cases b with
      | true => exact ih true c (by simpa using hc)
      | false =>
        rcases List.mem_cons.mp (by simpa using hc) with h | h
        · rw [h]; decide
        · exact ih true c h

theorem subNonAlnum_true_head (s : PyStr) :
    ∀ c, (subNonAlnum true s).head? = some c → isLowerAlphaNum c = true := by
  induction s with
  | nil => intro c hc; simp [subNonAlnum] at hc
  | cons a t ih =>
    intro c hc
    by_cases ha : isLowerAlphaNum a = true
    · rw [subNonAlnum, if_pos ha] at hc
      simp only [List.head?_cons, Option.some.injEq] at hc
      rwa [← hc]
    · rw [subNonAlnum, if_neg ha, if_pos rfl] at hc
      exact ih c hc

theorem subNonAlnum_noDouble (b : Bool) (s : PyStr) :
    noDouble (subNonAlnum b s) = true := by
  induction s generalizing b with
  | nil => cases b <;> rfl
  | cons a t ih =>
    by_cases ha : isLowerAlphaNum a = true
    · rw [subNonAlnum, if_pos ha, noDouble_cons_eq, Bool.and_eq_true]
      refine ⟨?_, ih false⟩
      cases hh : (subNonAlnum false t).head? with
      | none => simp
      | some d => simp [alnum_not_und ha]
    · rw [subNonAlnum, if_neg ha]
      cases b with
      | true => simpa using ih true
      | false =>
        simp only [Bool.false_eq_true, if_false]
        rw [noDouble_cons_eq, Bool.and_eq_true]
        refine ⟨?_, ih true⟩
        cases hh : (subNonAlnum true t).head? with
        | none => simp
        | some d => simp [alnum_not_und (subNonAlnum_true_head t d hh)]

/-! ### Identity of the rewriting passes on canonical strings -/

theorem toNat_alnum {c : Char}
    (h : (97 ≤ c.toNat ∧ c.toNat ≤ 122) ∨ (48 ≤ c.toNat ∧ c.toNat ≤ 57)) :
    isLowerAlphaNum c = true := by
  simpa [isLowerAlphaNum, Bool.or_eq_true, Bool.and_eq_true, decide_eq_true_eq] using h

theorem subNonAlnum_id {s : PyStr} (hall : ∀ c ∈ s, slugChar c = true)
    (hnd : noDouble s = true) :
    subNonAlnum false s = s ∧ (s.head? ≠ some '_' → subNonAlnum true s = s) := by
  induction s with
  | nil => exact ⟨rfl, fun _ => rfl⟩
  | cons a t ih =>
    have hsa : slugChar a = true := hall a (by simp)
    rw [noDouble_cons_eq, Bool.and_eq_true] at hnd
    have ihs := ih (fun c hc => hall c (by simp [hc])) hnd.2
    by_cases ha : isLowerAlphaNum a = true
    · constructor
      · rw [subNonAlnum, if_pos ha, ihs.1]
      · intro _
        rw [subNonAlnum, if_pos ha, ihs.1]
    · have ha95 : a.toNat = 95 := by
        rcases slugChar_toNat hsa with h | h | h
        · exact absurd (toNat_alnum (Or.inl h)) ha
        · exact absurd (toNat_alnum (Or.inr h)) ha
        · exact h
      have haund : a = '_' := eq_und_of_toNat ha95
      subst haund
      have htt : subNonAlnum true t = t := by
        apply ihs.2
        cases ht : t.head? with
        | none => simp
        | some b =>
          intro hb
          have hb2 : b = '_' := Option.some.inj hb
          subst hb2
          have hok := hnd.1
          rw [ht] at hok
          simp at hok
      constructor
      · rw [subNonAlnum, if_neg ha, if_neg Bool.false_ne_true, htt]
      · intro hcontra
        exact absurd rfl hcontra

theorem collapseUnd_id {s : PyStr} (hnd : noDouble s = true) :
    collapseUnd false s = s ∧ (s.head? ≠ some '_' → collapseUnd true s = s) := by
  induction s with
  | nil => exact ⟨rfl, fun _ => rfl⟩
  | cons a t ih =>
    rw [noDouble_cons_eq, Bool.and_eq_true] at hnd
    have ihs := ih hnd.2
    by_cases ha : a.toNat = 95
    · have haund : a = '_' := eq_und_of_toNat ha
      subst haund
      have htt : collapseUnd true t = t := by
        apply ihs.2
        cases ht : t.head? with
        | none => simp
        | some b =>
          intro hb
          have hb2 : b = '_' := Option.some.inj hb
          subst hb2
          have hok := hnd.1
          rw [ht] at hok
          simp at hok
      constructor
      · rw [collapseUnd, if_pos ha, if_neg Bool.false_ne_true, htt]
      · intro hcontra
        exact absurd rfl hcontra
    · constructor
      · rw [collapseUnd, if_neg ha, ihs.1]
      · intro _
        rw [collapseUnd, if_neg ha, ihs.1]

/-! ### Canonical form of slugify output -/

theorem mem_of_head? {α : Type} {l : List α} {a : α} (h : l.head? = some a) : a ∈ l := by
  cases l with
  | nil => simp at h
  | cons b t =>
    rw [List.head?_cons, Option.some.injEq] at h
    rw [← h]
    exact List.mem_cons_self b t

theorem mem_of_getLast? {α : Type} {l : List α} {a : α} (h : l.getLast? = some a) : a ∈ l := by
  rw [← List.head?_reverse] at h
  exact List.mem_reverse.mp (mem_of_head? h)

theorem dropWhile_eq_strip_append (p : Char → Bool) (s : PyStr) :
    s.dropWhile p = pyStrip p s ++ (List.takeWhile p (s.dropWhile p).reverse).reverse := by
  unfold pyStrip dropEnd
  conv_lhs => rw [← List.reverse_reverse (s.dropWhile p)]
  conv_lhs => rw [← List.takeWhile_append_dropWhile (p := p) (l := (s.dropWhile p).reverse)]
  rw [List.reverse_append]

theorem pyStrip_head {p : Char → Bool} {s : PyStr} {c : Char}
    (h : (pyStrip p s).head? = some c) : p c = false := by
  have hd : (s.dropWhile p).head? = some c := by
    rw [dropWhile_eq_strip_append p s, List.head?_append, h]
    rfl
  exact head_dropWhile_false hd

theorem pyStrip_getLast {p : Char → Bool} {s : PyStr} {c : Char}
    (h : (pyStrip p s).getLast? = some c) : p c = false := by
  unfold pyStrip dropEnd at h
  rw [List.getLast?_reverse] at h
  exact head_dropWhile_false h

theorem noDouble_pyStrip {p : Char → Bool} {s : PyStr} (h : noDouble s = true) :
    noDouble (pyStrip p s) = true := by
  have h1 : noDouble (s.dropWhile p) = true := by
    refine noDouble_append_right (u := List.takeWhile p s) ?_
    rw [List.takeWhile_append_dropWhile]
    exact h
  refine noDouble_append_left (v := (List.takeWhile p (s.dropWhile p).reverse).reverse) ?_
  rw [← dropWhile_eq_strip_append]
  exact h1

theorem und_beq_false_of_p95 {c : Char} (h : decide (c.toNat = 95) = false) :
    (c == '_') = false := by
  rw [beq_eq_false_iff_ne]
  intro he
  subst he
  revert h
  decide

theorem p95_false_of_beq {c : Char} (h : (c == '_') = false) :
    decide (c.toNat = 95) = false := by
  cases hd : decide (c.toNat = 95) with
  | false => rfl
  | true =>
    have h95 := of_decide_eq_true hd
    rw [eq_und_of_toNat h95] at h
    simp at h

theorem slugify_all {x : PyStr} : ∀ c ∈ _slugify x, slugChar c = true := by
  intro c hc
  unfold _slugify at hc
  rw [(collapseUnd_id (subNonAlnum_noDouble false _)).1] at hc
  exact subNonAlnum_all false _ c (mem_pyStrip hc)

theorem slugify_noDouble (x : PyStr) : noDouble (_slugify x) = true := by
  unfold _slugify
  rw [(collapseUnd_id (subNonAlnum_noDouble false _)).1]
  exact noDouble_pyStrip (subNonAlnum_noDouble false _)

theorem slugify_head {x : PyStr} {c : Char} (h : (_slugify x).head? = some c) :
    (c == '_') = false := by
  unfold _slugify at h
  rw [(collapseUnd_id (subNonAlnum_noDouble false _)).1] at h
  exact und_beq_false_of_p95 (pyStrip_head h)

theorem slugify_getLast {x : PyStr} {c : Char} (h : (_slugify x).getLast? = some c) :
    (c == '_') = false := by
  unfold _slugify at h
  rw [(collapseUnd_id (subNonAlnum_noDouble false _)).1] at h
  exact und_beq_false_of_p95 (pyStrip_getLast h)

theorem slugify_fix {s : PyStr} (hall : ∀ c ∈ s, slugChar c = true) (hnd : noDouble s = true)
    (hh : ∀ c, s.head? = some c → (c == '_') = false)
    (hl : ∀ c, s.getLast? = some c → (c == '_') = false) :
    _slugify s = s := by
  unfold _slugify
  rw [pyStrip_eq_self (p := isPySpace)
        (fun c hc => slugChar_not_space (hall c (mem_of_head? hc)))
        (fun c hc => slugChar_not_space (hall c (mem_of_getLast? hc)))]
  rw [map_eq_self_of (fun c hc => slugChar_pyLower (hall c hc))]
  rw [(subNonAlnum_id hall hnd).1]
  rw [(collapseUnd_id hnd).1]
  exact pyStrip_eq_self
    (fun c hc => p95_false_of_beq (hh c hc))
    (fun c hc => p95_false_of_beq (hl c hc))

theorem subNonAlnum_nonAlnum {s : PyStr} (h : ∀ c ∈ s, isLowerAlphaNum c = false) :
    subNonAlnum true s = [] ∧ subNonAlnum false s = (if s.isEmpty then [] else ['_']) := by
  induction s with
  | nil => exact ⟨rfl, rfl⟩
  | cons a t ih =>
    have ha : isLowerAlphaNum a = false := h a (by simp)
    have ihs := ih (fun c hc => h c (by simp [hc]))
    have hna : ¬ isLowerAlphaNum a = true := by simp [ha]
    constructor
    · rw [subNonAlnum, if_neg hna, if_pos rfl]
      exact ihs.1
    · rw [subNonAlnum, if_neg hna, if_neg Bool.false_ne_true, ihs.1]
      simp

theorem slugify_nonAlnum {x : PyStr}
    (h : ∀ c ∈ x, isLowerAlphaNum (pyLower c) = false) : _slugify x = [] := by
  unfold _slugify
  have hmem : ∀ c ∈ (pyStrip isPySpace x).map pyLower, isLowerAlphaNum c = false := by
    intro c hc
    rcases List.mem_map.mp hc with ⟨d, hd, rfl⟩
    exact h d (mem_pyStrip hd)
  rw [(subNonAlnum_nonAlnum hmem).2]
  split
  · rfl
  · decide

/-! ### Sample generator lemmas -/

theorem dictGet_dictSet_ne {d : Record} {k k2 : PyStr} {v : SampleValue}
    (h : (k == k2) = false) : dictGet (dictSet d k v) k2 = dictGet d k2 := by
  induction d with
  | nil => simp [dictSet, dictGet, h]
  | cons kv t ih =>
    obtain ⟨k0, v0⟩ := kv
    rw [dictSet]
    by_cases hk : (k0 == k) = true
    · rw [if_pos hk]
      have hk0 : k0 = k := eq_of_beq hk
      subst hk0
      simp only [dictGet]
      rw [if_neg (by simp [h]), if_neg (by simp [h])]
    · rw [if_neg hk]
      simp only [dictGet]
      by_cases h2 : (k0 == k2) = true
      · rw [if_pos h2, if_pos h2]
      · rw [if_neg h2, if_neg h2]
        exact ih

theorem foldl_assign_preserves (ts : Int) (props : List Property)
    (hp : ∀ p ∈ props, (p.name == chars "event_name") = false) :
    ∀ (payload : Record) (g : Gen),
      dictGet (props.foldl (assignProp ts) (payload, g)).1 (chars "event_name")
        = dictGet payload (chars "event_name") := by
  induction props with
  | nil => intro payload g; rfl
  | cons p t ih =>
    intro payload g
    rw [List.foldl_cons]
    have hstep : assignProp ts (payload, g) p
        = (dictSet payload p.name (sampleValueFor ts p.name g).1,
           (sampleValueFor ts p.name g).2) := rfl
    rw [hstep, ih (fun q hq => hp q (by simp [hq]))]
    exact dictGet_dictSet_ne (hp p (by simp))

theorem genOne_spec {now : Int} {events : List EventDefinition} (h : events ≠ [])
    (hprops : ∀ ev ∈ events, ∀ p ∈ ev.properties, (p.name == chars "event_name") = false)
    (g : Gen) :
    ∃ smp g2, genOne now events g = some (smp, g2)
      ∧ ∃ ev, ev ∈ events
          ∧ dictGet smp (chars "event_name") = some (SampleValue.str ev.event_name) := by
  have hlt : (nextNat g).1 % events.length < events.length :=
    Nat.mod_lt _ (List.length_pos.mpr h)
  have hev : events[(nextNat g).1 % events.length]?
      = some events[(nextNat g).1 % events.length] :=
    List.getElem?_eq_getElem hlt
  have hc : (pyChoice events g).1 = some events[(nextNat g).1 % events.length] := hev
  have heq : genOne now events g
      = some (events[(nextNat g).1 % events.length].properties.foldl
          (assignProp (now - (pyRandint 0 1440 (pyChoice events g).2).1))
          ([(chars "event_name",
             SampleValue.str events[(nextNat g).1 % events.length].event_name)],
           (pyRandint 0 1440 (pyChoice events g).2).2)) := by
    rw [genOne, hc]
  refine ⟨_, _, heq, events[(nextNat g).1 % events.length], List.getElem_mem hlt, ?_⟩
  rw [foldl_assign_preserves _ _
        (hprops events[(nextNat g).1 % events.length] (List.getElem_mem hlt))]
  simp [dictGet]

theorem genLoop_spec {now : Int} {events : List EventDefinition} (h : events ≠ [])
    (hprops : ∀ ev ∈ events, ∀ p ∈ ev.properties, (p.name == chars "event_name") = false) :
    ∀ (n : Nat) (g : Gen), ∃ rs g2, genLoop now events n g = some (rs, g2)
      ∧ rs.length = n
      ∧ ∀ smp ∈ rs, ∃ ev, ev ∈ events
          ∧ dictGet smp (chars "event_name") = some (SampleValue.str ev.event_name) := by
  intro n
  induction n with
  | zero => intro g; exact ⟨[], g, rfl, rfl, by simp⟩
  | succ m ih =>
    intro g
    obtain ⟨smp, g1, hone, hev⟩ := genOne_spec h hprops g
    obtain ⟨rs, g2, hloop, hlen, hmem⟩ := ih g1
    refine ⟨smp :: rs, g2, ?_, by simp [hlen], ?_⟩
    · rw [genLoop, hone]
      dsimp only
      rw [hloop]
    · intro s hs
      rcases List.mem_cons.mp hs with h1 | h1
      · rw [h1]
        exact hev
      · exact hmem s h1

/-! ### Built-plan structure lemmas -/

theorem default_properties_eq (label : PyStr) :
    _default_properties label =
      [userIdProp, workspaceIdProp, timestampProp]
        ++ (if containsSeq (chars "error") (label.map pyLower)
            then [errorCodeProp, errorMessageProp] else [])
        ++ (if containsSeq (chars "click") (label.map pyLower)
              || containsSeq (chars "cta") (label.map pyLower)
            then [elementIdProp, pageProp] else []) := by
  by_cases h1 : containsSeq (chars "error") (label.map pyLower) = true <;>
  by_cases h2 : (containsSeq (chars "click") (label.map pyLower)
      || containsSeq (chars "cta") (label.map pyLower)) = true <;>
  simp [_default_properties, h1, h2]

theorem default_properties_not_event_name (label : PyStr) :
    ∀ p ∈ _default_properties label, (p.name == chars "event_name") = false := by
  intro p hp
  rw [default_properties_eq] at hp
  rcases List.mem_append.mp hp with hp1 | hp2
  · rcases List.mem_append.mp hp1 with hp0 | hpe
    · fin_cases hp0 <;> decide
    · split at hpe
      · fin_cases hpe <;> decide
      · simp at hpe
  · split at hp2
    · fin_cases hp2 <;> decide
    · simp at hp2

theorem default_properties_mandatory (label : PyStr) :
    userIdProp ∈ _default_properties label
      ∧ workspaceIdProp ∈ _default_properties label
      ∧ timestampProp ∈ _default_properties label := by
  rw [default_properties_eq]
  refine ⟨?_, ?_, ?_⟩ <;>
    (apply List.mem_append.mpr; left; apply List.mem_append.mpr; left; simp)

theorem startsWith_append (a b : PyStr) : startsWith a (a ++ b) = true := by
  induction a with
  | nil => rfl
  | cons c t ih => simp [startsWith, ih]

theorem event_name_all_slug (a b : PyStr) : ∀ c ∈ _event_name a b, slugChar c = true := by
  intro c hc
  unfold _event_name at hc
  rcases List.mem_append.mp hc with hc1 | hc2
  · rcases List.mem_append.mp hc1 with hc0 | hcm
    · exact slugify_all c hc0
    · have : c = '_' := by simpa [chars] using hcm
      rw [this]
      decide
  · exact slugify_all c hc2

theorem event_name_ne_nil (a b : PyStr) : _event_name a b ≠ [] := by
  unfold _event_name
  simp [chars]

theorem snake_event_name (a b : PyStr) : snakeCaseMatch (_event_name a b) = true := by
  have hall := event_name_all_slug a b
  have hcond : ((_event_name a b).getLast? == some '\n') = false := by
    cases hgl : (_event_name a b).getLast? with
    | none => rfl
    | some c =>
      have hnl := slugChar_ne_newline (hall c (mem_of_getLast? hgl))
      have : (some c == some '\n') = (c == '\n') := rfl
      rw [this, hnl]
  unfold snakeCaseMatch
  rw [hcond, if_neg Bool.false_ne_true, Bool.and_eq_true]
  constructor
  · have := event_name_ne_nil a b
    simp only [Bool.not_eq_true']
    cases he : (_event_name a b).isEmpty
    · rfl
    · exact absurd (List.isEmpty_iff.mp he) this
  · exact List.all_eq_true.mpr hall

theorem built_events_cases (fn fd pf : PyStr) (ka : List PyStr) (fs : Option (List PyStr)) :
    ∀ ev ∈ (generate_tracking_plan fn fd ka pf fs).events,
      ∃ lbl, ev = mkFunnelEvent fn pf lbl ∨ ev = mkBehaviorEvent fn pf lbl := by
  intro ev hev
  simp only [generate_tracking_plan] at hev
  rcases List.mem_append.mp hev with h | h <;> rcases List.mem_map.mp h with ⟨lbl, _, rfl⟩
  · exact ⟨lbl, Or.inl rfl⟩
  · exact ⟨lbl, Or.inr rfl⟩

theorem built_event_facts (fn fd pf : PyStr) (ka : List PyStr) (fs : Option (List PyStr)) :
    ∀ ev ∈ (generate_tracking_plan fn fd ka pf fs).events,
      (∀ p ∈ ev.properties, (p.name == chars "event_name") = false)
      ∧ snakeCaseMatch ev.event_name = true
      ∧ hasProp ev (chars "user_id") = true
      ∧ hasProp ev (chars "workspace_id") = true
      ∧ hasProp ev (chars "timestamp") = true := by
  intro ev hev
  obtain ⟨lbl, hcase⟩ := built_events_cases fn fd pf ka fs ev hev
  have hprops : ev.properties = _default_properties lbl := by
    rcases hcase with rfl | rfl <;> rfl
  have hname : ev.event_name = _event_name fn lbl := by
    rcases hcase with rfl | rfl <;> rfl
  obtain ⟨hu, hw, ht⟩ := default_properties_mandatory lbl
  refine ⟨?_, ?_, ?_, ?_, ?_⟩
  · rw [hprops]
    exact default_properties_not_event_name lbl
  · rw [hname]
    exact snake_event_name fn lbl
  · unfold hasProp
    rw [hprops]
    exact List.any_eq_true.mpr ⟨userIdProp, hu, by decide⟩
  · unfold hasProp
    rw [hprops]
    exact List.any_eq_true.mpr ⟨workspaceIdProp, hw, by decide⟩
  · unfold hasProp
    rw [hprops]
    exact List.any_eq_true.mpr ⟨timestampProp, ht, by decide⟩

theorem built_events_ne_nil (fn fd pf : PyStr) (ka : List PyStr) (fs : Option (List PyStr)) :
    (generate_tracking_plan fn fd ka pf fs).events ≠ [] := by
  intro hcontra
  simp only [generate_tracking_plan, List.append_eq_nil] at hcontra
  obtain ⟨h1, _⟩ := hcontra
  rcases fs with _ | l
  · simp [defaultFunnelStages] at h1
  · dsimp only at h1
    by_cases hl : l.isEmpty = true
    · rw [if_pos hl] at h1
      simp [defaultFunnelStages] at h1
    · rw [if_neg hl] at h1
      rw [List.map_eq_nil_iff] at h1
      rw [h1] at hl
      simp at hl

theorem validateGo_clean {events : List EventDefinition}
    (hsnake : ∀ ev ∈ events, snakeCaseMatch ev.event_name = true)
    (hreq : ∀ ev ∈ events, hasProp ev (chars "user_id") = true
      ∧ hasProp ev (chars "workspace_id") = true ∧ hasProp ev (chars "timestamp") = true) :
    ∀ seen, ∀ issue ∈ validateGo seen events,
      startsWith (chars "Duplicate event name detected: ") issue = true := by
  induction events with
  | nil =>
    intro seen issue h
    simp [validateGo] at h
  | cons ev rest ih =>
    intro seen issue h
    rw [validateGo] at h
    obtain ⟨h1, h2, h3⟩ := hreq ev (by simp)
    have hs := hsnake ev (by simp)
    simp only [eventIssues, hs, if_true, requiredPropNames, List.flatMap_cons,
      List.flatMap_nil, h1, h2, h3, List.append_nil, List.nil_append] at h
    rcases List.mem_append.mp h with hh | hh
    · split at hh
      · have : issue = dupMsg ev.event_name := by simpa using hh
        rw [this, dupMsg]
        exact startsWith_append _ _
      · simp at hh
    · exact ih (fun e he => hsnake e (by simp [he])) (fun e he => hreq e (by simp [he])) _ issue hh

/-! ### Validator characterization -/

theorem validateGo_eq_byIndex (events : List EventDefinition) :
    ∀ seen, validateGo seen events
      = (List.range events.length).flatMap (fun i =>
          match events[i]? with
          | none => []
          | some ev => eventIssues
              (seen.contains ev.event_name
                || ((events.take i).map (fun e => e.event_name)).contains ev.event_name)
              snakeCaseMatch ev) := by
  induction events with
  | nil => intro seen; rfl
  | cons ev rest ih =>
    intro seen
    rw [validateGo, ih (ev.event_name :: seen)]
    rw [List.length_cons, List.range_succ_eq_map]
    rw [List.flatMap_cons, List.flatMap_map]
    congr 1
    · simp
    · apply flatMap_ext
      intro i _
      cases hv : rest[i]? with
      | none => simp [Function.comp, hv]
      | some e2 =>
        simp only [Function.comp, List.getElem?_cons_succ, hv, List.take_succ_cons,
          List.map_cons, List.contains_cons]
        congr 1
        rw [Bool.or_assoc, Bool.or_left_comm]

theorem map_const_len {α β : Type} (xs : List α) (b : β) :
    xs.map (fun _ => b) = List.replicate xs.length b := by
  induction xs with
  | nil => rfl
  | cons a t ih => simp [ih, List.replicate_succ]

theorem defaultFunnelStages_length : defaultFunnelStages.length = 3 := rfl

theorem map_category_funnel (fn pf : PyStr) (stages : List PyStr) :
    stages.map ((fun e => e.category) ∘ mkFunnelEvent fn pf)
      = List.replicate stages.length (chars "funnel") := by
  induction stages with
  | nil => rfl
  | cons s t ih =>
    simp only [List.map_cons, Function.comp_apply, List.length_cons,
      List.replicate_succ, mkFunnelEvent, ih]

theorem map_category_behavior (fn pf : PyStr) (actions : List PyStr) :
    actions.map ((fun e => e.category) ∘ mkBehaviorEvent fn pf)
      = List.replicate actions.length (chars "behavior") := by
  induction actions with
  | nil => rfl
  | cons s t ih =>
    simp only [List.map_cons, Function.comp_apply, List.length_cons,
      List.replicate_succ, mkBehaviorEvent, ih]

theorem map_name_funnel (fn pf : PyStr) (stages : List PyStr) :
    stages.map ((fun e => e.event_name) ∘ mkFunnelEvent fn pf)
      = stages.map (fun stage => _event_name fn stage) := by
  induction stages with
  | nil => rfl
  | cons s t ih => simp only [List.map_cons, Function.comp_apply, mkFunnelEvent, ih]

theorem map_name_behavior (fn pf : PyStr) (actions : List PyStr) :
    actions.map ((fun e => e.event_name) ∘ mkBehaviorEvent fn pf)
      = actions.map (fun action => _event_name fn action) := by
  induction actions with
  | nil => rfl
  | cons s t ih => simp only [List.map_cons, Function.comp_apply, mkBehaviorEvent, ih]

/-- C1: for every feature name, description, platform, key-action list and
funnel-stage list, the events of the plan built by `generate_tracking_plan`
number `len(funnel_stages or default-3)` plus the number of non-blank key
actions, and consist of the funnel-category events first (one per stage, in
stage order, named from the stage) followed by the behavior-category events
(one per non-blank key action, in action order, named from the action). -/
theorem build_plan_events_shape (feature_name feature_description platform : PyStr)
    (key_actions : List PyStr) (funnel_stages : Option (List PyStr)) :
    ((generate_tracking_plan feature_name feature_description key_actions platform
        funnel_stages).events.length
      = (match funnel_stages with
         | none => 3
         | some l => if l.isEmpty then 3 else l.length)
        + (key_actions.filter (fun a => !isBlank a)).length)
    ∧ (generate_tracking_plan feature_name feature_description key_actions platform
        funnel_stages).events.map (fun e => e.category)
        = List.replicate (match funnel_stages with
            | none => 3
            | some l => if l.isEmpty then 3 else l.length) (chars "funnel")
          ++ List.replicate (key_actions.filter (fun a => !isBlank a)).length
              (chars "behavior")
    ∧ (generate_tracking_plan feature_name feature_description key_actions platform
        funnel_stages).events.map (fun e => e.event_name)
        = (match funnel_stages with
           | none => defaultFunnelStages
           | some l => if l.isEmpty then defaultFunnelStages else l).map
              (fun stage => _event_name feature_name stage)
          ++ (key_actions.filter (fun a => !isBlank a)).map
              (fun action => _event_name feature_name action) := by
  rcases funnel_stages with _ | l
  · refine ⟨?_, ?_, ?_⟩ <;>
      simp [generate_tracking_plan, List.map_map, map_category_funnel,
        map_category_behavior, map_name_funnel, map_name_behavior,
        defaultFunnelStages_length]
  · by_cases hl : l.isEmpty = true <;> refine ⟨?_, ?_, ?_⟩ <;>
      simp [generate_tracking_plan, hl, List.map_map, map_category_funnel,
        map_category_behavior, map_name_funnel, map_name_behavior,
        defaultFunnelStages_length]

/-- C2 (amended): the taxonomy validator output is, for the i-th event in list
order, one duplicate issue exactly when the name occurs among the names of the
events before it, then one snake_case issue exactly when the name fails the
Python regex match (one or more characters from [a-z0-9_], optionally followed
by a single trailing newline that `$` tolerates), then one missing-property
issue per absent required property in the order user_id, workspace_id,
timestamp. -/
theorem validate_taxonomy_characterization (events : List EventDefinition) :
    validate_taxonomy events = validateByIndex snakeCaseMatch events := by
  unfold validate_taxonomy validateByIndex
  rw [validateGo_eq_byIndex events []]
  apply flatMap_ext
  intro i _
  cases hv : events[i]? with
  | none => rfl
  | some ev => simp [hv]

/-- An event whose name is slug characters followed by one newline; its
properties carry all three required names. -/
def newlineNameEvent : EventDefinition :=
  { event_name := chars "a\n"
    friendly_name := chars "A"
    description := chars "d"
    when_triggered := chars "w"
    platform := chars "web"
    properties := [userIdProp, workspaceIdProp, timestampProp]
    category := chars "funnel" }

/-- C2 counterexample: on the event named "a\n" the code emits no issue (the
regex `$` of SNAKE_CASE_PATTERN matches just before the trailing newline),
while the claim's predicate — one or more characters drawn from lowercase
letters, digits and underscores — demands a snake_case issue. -/
theorem validate_taxonomy_newline_counterexample :
    validate_taxonomy [newlineNameEvent] = []
      ∧ validateByIndex snakeStrict [newlineNameEvent] = [snakeMsg (chars "a\n")] :=
  ⟨rfl, rfl⟩

/-- C3: `_slugify` is idempotent; its output consists of characters from
[a-z0-9_] with no leading underscore, no trailing underscore and no two
consecutive underscores; and an input with no alphanumeric character (after
lowercasing), in particular the empty string or all-punctuation text, slugifies
to the empty string. -/
theorem slugify_idempotent_and_canonical (x : PyStr) :
    _slugify (_slugify x) = _slugify x
    ∧ (_slugify x).all slugChar = true
    ∧ (∀ c, (_slugify x).head? = some c → (c == '_') = false)
    ∧ (∀ c, (_slugify x).getLast? = some c → (c == '_') = false)
    ∧ noDouble (_slugify x) = true
    ∧ ((∀ c ∈ x, isLowerAlphaNum (pyLower c) = false) → _slugify x = []) := by
  refine ⟨slugify_fix slugify_all (slugify_noDouble x)
      (fun c hc => slugify_head hc) (fun c hc => slugify_getLast hc),
    List.all_eq_true.mpr slugify_all,
    fun c hc => slugify_head hc,
    fun c hc => slugify_getLast hc,
    slugify_noDouble x,
    fun h => slugify_nonAlnum h⟩

/-- Witness for C3: the theorem applied at the concrete all-punctuation input
"!?", discharging the hypothesis of its last conjunct. -/
theorem slugify_idempotent_and_canonical_witness : _slugify (chars "!?") = [] :=
  (slugify_idempotent_and_canonical (chars "!?")).2.2.2.2.2 (by decide)

/-- C4: `_default_properties` starts with exactly user_id, workspace_id and
timestamp in that order; then, matching against the lowercased raw label, the
optional error_code/error_message block is appended when the label contains
"error", and the optional element_id/page block when it contains "click" or
"cta", in that order when both fire. -/
theorem default_properties_blocks (label : PyStr) :
    _default_properties label =
      [userIdProp, workspaceIdProp, timestampProp]
        ++ (if containsSeq (chars "error") (label.map pyLower)
            then [errorCodeProp, errorMessageProp] else [])
        ++ (if containsSeq (chars "click") (label.map pyLower)
              || containsSeq (chars "cta") (label.map pyLower)
            then [elementIdProp, pageProp] else []) :=
  default_properties_eq label

/-- C7: building a plan for feature "share", empty description, key actions
["click invite"], platform "web" and default funnel stages yields exactly the
event names share__view, share__start, share__complete, share__click_invite in
that order, and the last event carries element_id and page among its
properties. -/
theorem share_scenario :
    (generate_tracking_plan (chars "share") (chars "") [chars "click invite"] (chars "web")
        Option.none).events.map (fun e => e.event_name)
      = [chars "share__view", chars "share__start", chars "share__complete",
         chars "share__click_invite"]
    ∧ ((generate_tracking_plan (chars "share") (chars "") [chars "click invite"] (chars "web")
        Option.none).events.getLast?.map (fun e => e.properties.map (fun p => p.name)))
      = some [chars "user_id", chars "workspace_id", chars "timestamp",
              chars "element_id", chars "page"] :=
  ⟨rfl, rfl⟩

/-- A structurally valid plan value whose events list is empty. -/
def emptyEventsPlan : TrackingPlan :=
  { feature_name := chars "feature"
    feature_description := chars ""
    platform := chars "web"
    events := []
    taxonomy_issues := [] }

/-- C5 counterexample: on a plan whose events list is empty, asking for one
sample makes `random.choice(plan["events"])` raise IndexError (modelled as
`none`), so no sequence of exactly 1 record is returned. -/
theorem generate_samples_empty_plan_raises :
    generate_sample_events (fun _ => 0) 0 emptyEventsPlan 1 = Option.none := rfl

/-- C5 (amended): for every plan returned by build_plan and every n ≥ 0 (and
every random stream and clock), generate_samples returns exactly n records,
and every record's event_name field equals the event_name of some event of the
plan. -/
theorem build_plan_generate_samples (feature_name feature_description platform : PyStr)
    (key_actions : List PyStr) (funnel_stages : Option (List PyStr))
    (r : Nat → Nat) (now : Int) (n : Nat) :
    ∃ rs : List Record,
      generate_sample_events r now
          (generate_tracking_plan feature_name feature_description key_actions platform
            funnel_stages) n = some rs
      ∧ rs.length = n
      ∧ ∀ smp ∈ rs, ∃ ev,
          ev ∈ (generate_tracking_plan feature_name feature_description key_actions platform
            funnel_stages).events
          ∧ dictGet smp (chars "event_name") = some (SampleValue.str ev.event_name) := by
  have hne := built_events_ne_nil feature_name feature_description platform key_actions
    funnel_stages
  have hprops := fun ev he =>
    (built_event_facts feature_name feature_description platform key_actions funnel_stages
      ev he).1
  obtain ⟨rs, g2, hloop, hlen, hmem⟩ := genLoop_spec hne hprops n { r := r, i := 0 }
  refine ⟨rs, ?_, hlen, hmem⟩
  unfold generate_sample_events
  rw [hloop]

/-- C6: the schema value serialized by the schema-manifest renderer is
`{version: 2, models: [...]}` with one model per event in plan order (model
name = event name, model description = event description), one column per
property in property order, where a required property's tests list is exactly
the one-element "not_null" list and an optional property's tests list is
empty. -/
theorem dbt_schema_structure (plan : TrackingPlan) :
    ∃ ms : List YamlValue,
      dbt_schema plan
          = .dict [(chars "version", .nat 2), (chars "models", .list ms)]
        ∧ ms.length = plan.events.length
        ∧ ∀ i : Fin plan.events.length,
            ∃ cols : List YamlValue,
              ms[i.val]? = some (.dict
                  [(chars "name", .str (plan.events.get i).event_name),
                   (chars "description", .str (plan.events.get i).description),
                   (chars "columns", .list cols)])
              ∧ cols.length = (plan.events.get i).properties.length
              ∧ ∀ j : Fin (plan.events.get i).properties.length,
                  ∃ tests : List YamlValue,
                    cols[j.val]? = some (.dict
                        [(chars "name", .str ((plan.events.get i).properties.get j).name),
                         (chars "description",
                          .str ((plan.events.get i).properties.get j).description),
                         (chars "tests", .list tests)])
                    ∧ (if ((plan.events.get i).properties.get j).required
                       then tests = [.str (chars "not_null")] else tests = []) := by
  refine ⟨plan.events.map dbtModel, rfl, by simp, ?_⟩
  intro i
  refine ⟨(plan.events.get i).properties.map dbtColumn, ?_, by simp, ?_⟩
  · rw [List.getElem?_map, List.getElem?_eq_getElem i.isLt]
    simp [dbtModel, List.get_eq_getElem]
  · intro j
    refine ⟨if ((plan.events.get i).properties.get j).required
        then [.str (chars "not_null")] else [], ?_, ?_⟩
    · rw [List.getElem?_map, List.getElem?_eq_getElem j.isLt]
      simp [dbtColumn, List.get_eq_getElem]
    · split <;> rfl

/-- C8: each of the three renderers leaves the plan unchanged: the plan value
after the call equals the plan value before the call. -/
theorem renderers_leave_plan_unchanged (plan : TrackingPlan) (r : Nat → Nat) (now : Int)
    (n : Nat) :
    (tracking_plan_to_markdown_call plan).2 = plan
    ∧ (tracking_plan_to_dbt_yaml_call plan).2 = plan
    ∧ (generate_sample_events_call r now plan n).2 = plan :=
  ⟨rfl, rfl, rfl⟩

/-- C9: every taxonomy issue of a plan built by build_plan begins with
"Duplicate event name detected: "; the snake_case branch and the
missing-required-property branch of the validator never fire on built plans. -/
theorem built_plan_issue_prefix (feature_name feature_description platform : PyStr)
    (key_actions : List PyStr) (funnel_stages : Option (List PyStr)) :
    ∀ issue ∈ (generate_tracking_plan feature_name feature_description key_actions platform
        funnel_stages).taxonomy_issues,
      startsWith (chars "Duplicate event name detected: ") issue = true := by
  intro issue h
  have hfacts := built_event_facts feature_name feature_description platform key_actions
    funnel_stages
  have htax : (generate_tracking_plan feature_name feature_description key_actions platform
      funnel_stages).taxonomy_issues
      = validate_taxonomy (generate_tracking_plan feature_name feature_description key_actions
          platform funnel_stages).events := rfl
  rw [htax] at h
  exact validateGo_clean (fun ev he => (hfacts ev he).2.1)
    (fun ev he => ⟨(hfacts ev he).2.2.1, (hfacts ev he).2.2.2.1, (hfacts ev he).2.2.2.2⟩)
    [] issue h

/-- Witness for C9: the theorem applied to the plan for feature "a" with key
actions ["sync", "Sync!"], whose two actions slugify to the same identifier;
the resulting duplicate issue is a concrete member of taxonomy_issues. -/
theorem built_plan_issue_prefix_witness :
    startsWith (chars "Duplicate event name detected: ") (dupMsg (chars "a__sync")) = true :=
  built_plan_issue_prefix (chars "a") (chars "") (chars "web")
    [chars "sync", chars "Sync!"] Option.none (dupMsg (chars "a__sync")) (by decide)

/-- C10: the events list of every plan built by build_plan is non-empty (an
empty or unset funnel_stages is replaced by the three-stage default), so the
sample generator's uniform choice over plan.events succeeds for every n on
built plans. -/
theorem built_plan_samples_defined (feature_name feature_description platform : PyStr)
    (key_actions : List PyStr) (funnel_stages : Option (List PyStr))
    (r : Nat → Nat) (now : Int) (n : Nat) :
    (generate_tracking_plan feature_name feature_description key_actions platform
        funnel_stages).events.isEmpty = false
    ∧ (generate_sample_events r now
        (generate_tracking_plan feature_name feature_description key_actions platform
          funnel_stages) n).isSome = true := by
  have hne := built_events_ne_nil feature_name feature_description platform key_actions
    funnel_stages
  constructor
  · cases he : (generate_tracking_plan feature_name feature_description key_actions platform
        funnel_stages).events.isEmpty
    · rfl
    · exact absurd (List.isEmpty_iff.mp he) hne
  · have hprops := fun ev he =>
      (built_event_facts feature_name feature_description platform key_actions funnel_stages
        ev he).1
    obtain ⟨rs, g2, hloop, _, _⟩ := genLoop_spec hne hprops n { r := r, i := 0 }
    unfold generate_sample_events
    rw [hloop]
    rfl
